import Mathlib

/-!
Verification of the friendlysam solver-adapter layer
(`friendlysam/optimization/solvers.py`).

The Python source translates symbolic (sympy) polynomial expressions and
relations into pyomo model objects, invokes an external solver, and maps the
numeric result back to the problem's variables.  This file is a shallow
embedding of that layer:

* `Expr` models a sympy expression over symbols (problem variables identified
  by natural numbers); a `func` node stands for any non-polynomial operator
  application (such as `sin`), whose numeric meaning is supplied by an
  interpretation `I`.
* `asPoly` models `sympy`'s `expr.as_poly(*symbols)`: the decomposition of an
  expression into a sum of monomials, each a (coefficient, exponent-vector)
  pair over the ordered symbol list; it yields `none` exactly when the
  expression is not reducible to a polynomial over those symbols.
* `PyExpr` models pyomo expression trees, `PyomoVar` pyomo decision variables
  (created by `pyomo.environ.Var()` with no arguments: no bounds, `Reals`
  domain), and `make_pyomo_poly` / `make_pyomo_relation` / `add_constraint` /
  `solve` embed the corresponding `PyomoSolver` methods.
* `get_solver` embeds the module-level solver registry, with backend
  availability given by an oracle `avail` (the `PyomoSolver.__init__`
  docstring states that construction raises `SolverNotAvailableError` when the
  backend is not available; the pyomo backends themselves are external).

Python exceptions are modelled by `Except` with the `PyError` error type.
Machine floats are idealised as exact rationals `ℚ` (the spec asks for
equality within floating-point tolerance; the algebraic content is exact).
-/

namespace Friendlysam

/-! ## Symbolic expressions (the sympy side) -/

/-- A sympy expression over symbols.  `var n` is the symbol of the problem
variable with identity `n`.  `func f a` stands for a non-polynomial operator
(e.g. `sin`) applied to `a`; sympy's `as_poly` cannot reduce it, and its
numeric value is given by an interpretation of the function names. -/
inductive Expr where
  | const : ℚ → Expr
  | var : ℕ → Expr
  | add : Expr → Expr → Expr
  | sub : Expr → Expr → Expr
  | mul : Expr → Expr → Expr
  | pow : Expr → ℕ → Expr
  | func : ℕ → Expr → Expr
deriving DecidableEq

/-- Numeric evaluation of an expression: `I` interprets the non-polynomial
function names, `σ` assigns a value to every symbol. -/
def Expr.eval (I : ℕ → ℚ → ℚ) (σ : ℕ → ℚ) : Expr → ℚ
  | .const q => q
  | .var n => σ n
  | .add a b => a.eval I σ + b.eval I σ
  | .sub a b => a.eval I σ - b.eval I σ
  | .mul a b => a.eval I σ * b.eval I σ
  | .pow a n => a.eval I σ ^ n
  | .func f a => I f (a.eval I σ)

/-- The symbol occurrences of an expression (with duplicates). -/
def Expr.varList : Expr → List ℕ
  | .const _ => []
  | .var n => [n]
  | .add a b => a.varList ++ b.varList
  | .sub a b => a.varList ++ b.varList
  | .mul a b => a.varList ++ b.varList
  | .pow a _ => a.varList
  | .func _ a => a.varList

/-- The set of symbols of an expression: `expr.atoms(sympy.Symbol)`. -/
def Expr.vars (e : Expr) : Finset ℕ := e.varList.toFinset

/-- `sorted(expr.atoms(sympy.Symbol), key=...)`: the expression's symbols,
without duplicates, in a canonical deterministic order. -/
def Expr.symbols (e : Expr) : List ℕ := e.varList.dedup.insertionSort (· ≤ ·)

/-- Printable form of an expression (used in error messages, mirroring
Python's string formatting of a sympy expression). -/
def Expr.str : Expr → String
  | .const q => toString q
  | .var n => "x" ++ Nat.repr n
  | .add a b => "(" ++ a.str ++ " + " ++ b.str ++ ")"
  | .sub a b => "(" ++ a.str ++ " - " ++ b.str ++ ")"
  | .mul a b => "(" ++ a.str ++ "*" ++ b.str ++ ")"
  | .pow a n => "(" ++ a.str ++ "**" ++ Nat.repr n ++ ")"
  | .func f a => "f" ++ Nat.repr f ++ "(" ++ a.str ++ ")"

/-! ## Polynomial decomposition (model of `expr.as_poly(*symbols)`)

A monomial is an exponent vector over the ordered symbol list, represented as
a function from the symbol's index to its exponent; a polynomial is a list of
(monomial, coefficient) terms, as produced by sympy's `Poly.terms()`. -/

/-- Exponent vector of a monomial, indexed by position in the symbol list. -/
abbrev Monom := ℕ → ℕ

/-- A polynomial as a sum of (exponent-vector, coefficient) terms. -/
abbrev Poly := List (Monom × ℚ)

/-- The monomial with all exponents zero. -/
def monomOne : Monom := fun _ => 0

/-- The monomial consisting of the single symbol at index `j`. -/
def monomVar (j : ℕ) : Monom := fun i => if i = j then 1 else 0

/-- Product of monomials: exponents add. -/
def monomMul (m m' : Monom) : Monom := fun i => m i + m' i

/-- Value of a monomial at a vector of symbol values. -/
def monomEval (vals : List ℚ) (m : Monom) : ℚ :=
  ∏ i ∈ Finset.range vals.length, vals.getD i 0 ^ m i

/-- Constant polynomial. -/
def polyC (c : ℚ) : Poly := [(monomOne, c)]

/-- The polynomial consisting of the single symbol at index `j`. -/
def polyX (j : ℕ) : Poly := [(monomVar j, 1)]

/-- Sum of polynomials. -/
def polyAdd (p q : Poly) : Poly := p ++ q

/-- Negation of a polynomial. -/
def polyNeg (p : Poly) : Poly := p.map fun t => (t.1, -t.2)

/-- Difference of polynomials. -/
def polySub (p q : Poly) : Poly := polyAdd p (polyNeg q)

/-- Product of polynomials: all pairwise products of terms. -/
def polyMul (p q : Poly) : Poly :=
  p.flatMap fun t => q.map fun u => (monomMul t.1 u.1, t.2 * u.2)

/-- Power of a polynomial by repeated multiplication. -/
def polyPow (p : Poly) : ℕ → Poly
  | 0 => polyC 1
  | n + 1 => polyMul p (polyPow p n)

/-- Value of a polynomial at a vector of symbol values. -/
def polyEval (vals : List ℚ) (p : Poly) : ℚ :=
  (p.map fun t => t.2 * monomEval vals t.1).sum

/-- Model of `expr.as_poly(*symbols)`: decompose `e` into a sum of monomials
over the ordered symbol list `syms`.  Returns `none` when the expression is
not reducible to a polynomial over those symbols (a `func` node occurs, or a
symbol is missing from `syms`); the Python call then returns `None`. -/
def asPoly (syms : List ℕ) : Expr → Option Poly
  | .const c => some (polyC c)
  | .var n => if n ∈ syms then some (polyX (syms.indexOf n)) else none
  | .add a b => do
    let pa ← asPoly syms a
    let pb ← asPoly syms b
    return polyAdd pa pb
  | .sub a b => do
    let pa ← asPoly syms a
    let pb ← asPoly syms b
    return polySub pa pb
  | .mul a b => do
    let pa ← asPoly syms a
    let pb ← asPoly syms b
    return polyMul pa pb
  | .pow a n => do
    let pa ← asPoly syms a
    return polyPow pa n
  | .func _ _ => none

/-! ## Pyomo expressions and Python exceptions -/

/-- A pyomo expression tree.  `var n` is the pyomo decision variable whose
creation counter is `n` (see `add_var`). -/
inductive PyExpr where
  | const : ℚ → PyExpr
  | var : ℕ → PyExpr
  | add : PyExpr → PyExpr → PyExpr
  | mul : PyExpr → PyExpr → PyExpr
deriving DecidableEq

/-- Evaluation of a pyomo expression at an assignment `τ` of values to pyomo
variables (identified by their creation counter). -/
def PyExpr.eval (τ : ℕ → ℚ) : PyExpr → ℚ
  | .const c => c
  | .var n => τ n
  | .add a b => a.eval τ + b.eval τ
  | .mul a b => a.eval τ * b.eval τ

/-- The Python exceptions the solver layer can raise:
`ValueError` (non-polynomial expression in `_make_pyomo_poly`),
`PyomoExpressionError` (untranslatable relation in `_make_pyomo_relation`),
`NotImplementedError` (SOS / unrecognized constraints in `_add_constraint`),
`SolverError` (non-optimal solve status in `solve`). -/
inductive PyError where
  | valueError : String → PyError
  | pyomoExpressionError : String → PyError
  | notImplementedError : PyError
  | solverError : String → PyError
deriving DecidableEq

deriving instance DecidableEq for Except

/-- Python's `sum(terms)`: left fold of `+` starting from `0`. -/
def pySum (ts : List PyExpr) : PyExpr := ts.foldl .add (.const 0)

/-- Python's `reduce(operator.mul, factors)` on a non-empty list: the head,
then a left fold of `*`.  (On the empty list the Python call raises; the
caller only reaches it with a non-empty list, and the `[]` equation here is
never exercised.) -/
def reduceMul : List PyExpr → PyExpr
  | [] => .const 1
  | x :: xs => xs.foldl .mul x

/-- The factor list of one monomial term:
`for base, exponent in filter(lambda (a, e): e != 0, zip(variables, exponents)):
factors.extend([base] * exponent)` — each variable raised to exponent `e`
contributes `e` copies of itself. -/
def mkFactors (pairs : List (ℕ × ℕ)) : List PyExpr :=
  (pairs.filter fun be => be.2 != 0).flatMap fun be =>
    List.replicate be.2 (PyExpr.var be.1)

/-- One term of the translated polynomial (the loop body of
`_make_pyomo_poly`): a variable-free monomial is contributed as the pure
numeric constant `coeff`; otherwise the term is
`coeff * reduce(mul, factors)`. -/
def mkTerm (pyvars : List ℕ) (t : Monom × ℚ) : PyExpr :=
  let exponents := (List.range pyvars.length).map t.1
  if exponents.all fun e => e == 0 then .const t.2
  else .mul (.const t.2) (reduceMul (mkFactors (pyvars.zip exponents)))

/-- `PyomoSolver._make_pyomo_poly(expr)`: sort the expression's symbols, look
up their pyomo variables through the binding `b`, return the numeric value
for a symbol-free expression (`float(expr)`, modelled as evaluation under the
interpretation `I`), otherwise decompose into a polynomial — raising
`ValueError` when sympy's `as_poly` returns `None` — and sum the translated
terms. -/
def make_pyomo_poly (I : ℕ → ℚ → ℚ) (b : ℕ → ℕ) (e : Expr) :
    Except PyError PyExpr :=
  let symbols := e.symbols
  let pyvars := symbols.map b
  if symbols.length = 0 then
    .ok (.const (e.eval I fun _ => 0))
  else
    match asPoly symbols e with
    | none => .error (.valueError (e.str ++ " is not a sympy polynomial"))
    | some p => .ok (pySum (p.map (mkTerm pyvars)))

/-! ## Relations -/

/-- A sympy relational expression (`sympy.Rel`), with the relational classes
that exist in sympy: `LessThan` (`<=`), `GreaterThan` (`>=`), `Equality`,
`StrictLessThan` (`<`), `StrictGreaterThan` (`>`), and `Unequality` (`!=`,
which `_make_pyomo_relation` does not recognize). -/
inductive Rel where
  | le : Expr → Expr → Rel
  | ge : Expr → Expr → Rel
  | eq : Expr → Expr → Rel
  | lt : Expr → Expr → Rel
  | gt : Expr → Expr → Rel
  | ne : Expr → Expr → Rel
deriving DecidableEq

/-- The sympy class name of a relation, as `type(expr)` prints it. -/
def Rel.typeName : Rel → String
  | .le _ _ => "LessThan"
  | .ge _ _ => "GreaterThan"
  | .eq _ _ => "Equality"
  | .lt _ _ => "StrictLessThan"
  | .gt _ _ => "StrictGreaterThan"
  | .ne _ _ => "Unequality"

/-- Printable form of a relation (for the error message). -/
def Rel.str : Rel → String
  | .le a b => a.str ++ " <= " ++ b.str
  | .ge a b => a.str ++ " >= " ++ b.str
  | .eq a b => a.str ++ " == " ++ b.str
  | .lt a b => a.str ++ " < " ++ b.str
  | .gt a b => a.str ++ " > " ++ b.str
  | .ne a b => a.str ++ " != " ++ b.str

/-- Whether a relation holds at an interpretation and symbol assignment. -/
def Rel.holds (I : ℕ → ℚ → ℚ) (σ : ℕ → ℚ) : Rel → Prop
  | .le a b => a.eval I σ ≤ b.eval I σ
  | .ge a b => b.eval I σ ≤ a.eval I σ
  | .eq a b => a.eval I σ = b.eval I σ
  | .lt a b => a.eval I σ < b.eval I σ
  | .gt a b => b.eval I σ < a.eval I σ
  | .ne a b => a.eval I σ ≠ b.eval I σ

/-- A pyomo constraint expression: a translated polynomial compared with 0. -/
inductive PyRel where
  | le0 : PyExpr → PyRel
  | ge0 : PyExpr → PyRel
  | eq0 : PyExpr → PyRel
deriving DecidableEq

/-- Whether a pyomo constraint holds at an assignment of the pyomo
variables. -/
def PyRel.holds (τ : ℕ → ℚ) : PyRel → Prop
  | .le0 e => e.eval τ ≤ 0
  | .ge0 e => 0 ≤ e.eval τ
  | .eq0 e => e.eval τ = 0

/-- The message of the `PyomoExpressionError` for strict inequalities. -/
def strictMsg : String := "Strict inequalities are not allowed."

/-- The message of the `PyomoExpressionError` for an unrecognized relation:
names the expression and its type. -/
def cannotTranslateMsg (r : Rel) : String :=
  "Expression " ++ r.str ++ " (" ++ r.typeName ++ ") cannot be translated."

/-- `PyomoSolver._make_pyomo_relation(expr)`: a non-strict inequality or an
equality `a ⊳ b` becomes `_make_pyomo_poly(a - b) ⊳ 0`; a strict inequality
raises `PyomoExpressionError`; anything else raises `PyomoExpressionError`
naming the expression and its type. -/
def make_pyomo_relation (I : ℕ → ℚ → ℚ) (b : ℕ → ℕ) : Rel → Except PyError PyRel
  | .le x y => (make_pyomo_poly I b (.sub x y)).map .le0
  | .ge x y => (make_pyomo_poly I b (.sub x y)).map .ge0
  | .eq x y => (make_pyomo_poly I b (.sub x y)).map .eq0
  | .gt _ _ => .error (.pyomoExpressionError strictMsg)
  | .lt _ _ => .error (.pyomoExpressionError strictMsg)
  | .ne x y => .error (.pyomoExpressionError (cannotTranslateMsg (.ne x y)))

/-! ## Problem variables and the pyomo binding -/

/-- Modelled from the spec: the domain tag of an abstract problem variable
(`friendlysam.optimization.optimization` is not in src); "domain tag ∈
\x7bcontinuous, integer, binary\x7d". -/
inductive Domain where
  | continuous
  | integer
  | binary
deriving DecidableEq

/-- Modelled from the spec: an abstract problem variable, "identity (unique,
stable across the process), optional lower/upper bound, domain tag"
(`friendlysam.optimization.optimization` is not in src). -/
structure Variable where
  id : ℕ
  lb : Option ℚ
  ub : Option ℚ
  domain : Domain
deriving DecidableEq

/-- The domain set of a pyomo decision variable. -/
inductive PyDomain where
  | reals
  | integers
  | binary
deriving DecidableEq

/-- A pyomo decision variable as created by `PyomoSolver._add_var`.  `idx` is
the value of the creation counter, `name` the model attribute name
`'v\x7b\x7d'.format(counter)`.  `pyomo.environ.Var()` is called with no
arguments, so (per the pyomo documentation) the variable has no bounds and
the default `Reals` domain. -/
structure PyomoVar where
  idx : ℕ
  name : String
  lb : Option ℚ
  ub : Option ℚ
  domain : PyDomain
deriving DecidableEq

/-- `PyomoSolver._add_var`: increment the counter, create a fresh unbounded
continuous `Var`, attach it to the model under the counter-based name, and
return it (here: the new counter value and the variable). -/
def add_var (counter : ℕ) : ℕ × PyomoVar :=
  let c := counter + 1
  (c, { idx := c, name := "v" ++ Nat.repr c, lb := none, ub := none,
        domain := .reals })

/-- The loop underlying the binding comprehension
`{v: self._add_var() for v in problem.variables}`, threading the variable
counter (which `solve` resets to 0). -/
def bind_vars_from (counter : ℕ) : List Variable → List (Variable × PyomoVar)
  | [] => []
  | v :: rest =>
    let cv := add_var counter
    (v, cv.2) :: bind_vars_from cv.1 rest

/-- The binding `self._pyomo_variables` built at the start of `solve`:
one fresh pyomo variable per problem variable, counters starting at 0. -/
def bind_vars (vs : List Variable) : List (Variable × PyomoVar) :=
  bind_vars_from 0 vs

/-- Dictionary lookup `self._pyomo_variables[s]`, keyed by the variable's
identity, returning the pyomo variable's counter index.  A missing key
raises `KeyError` in Python; that case is unreachable for problems whose
variable set covers the translated expressions, and is given the junk index
0 here. -/
def lookupIdx (binding : List (Variable × PyomoVar)) (n : ℕ) : ℕ :=
  match binding.find? fun p => p.1.id == n with
  | some p => p.2.idx
  | none => 0

/-- Modelled from the spec: the VariableBinder contract "preserving bound and
domain metadata" — the pyomo variable carries the same bounds and the pyomo
domain corresponding to the abstract domain tag.  (Comparison definition for
claim C5; the source's `_add_var` is the authority for what actually
happens.) -/
def specDomain : Domain → PyDomain
  | .continuous => .reals
  | .integer => .integers
  | .binary => .binary

/-- Modelled from the spec: "each created solver variable preserves the
abstract variable's declared lower/upper bounds and domain tag". -/
def specPreservesMeta (v : Variable) (pv : PyomoVar) : Prop :=
  pv.lb = v.lb ∧ pv.ub = v.ub ∧ pv.domain = specDomain v.domain

/-! ## Constraints, objective, and `solve` -/

/-- A constraint of a problem, as classified by the `isinstance` chain of
`PyomoSolver._add_constraint`: a `RelConstraint` wrapping a sympy relation
(unwrapped via `c.expr`), a bare sympy relation, an `SOS1Constraint`, an
`SOS2Constraint`, or any other object (the final `else`). -/
inductive Constr where
  | relConstraint : Rel → Constr
  | bareRel : Rel → Constr
  | sos1 : List Variable → Constr
  | sos2 : List Variable → Constr
  | unrecognized : Constr
deriving DecidableEq

/-- `PyomoSolver._add_constraint(c)`: unwrap a `RelConstraint` and translate
the relation (the translated expression is attached to the model; the
`except ValueError` handler only prints and re-raises, so errors propagate
unchanged); `SOS1Constraint`, `SOS2Constraint` and any unrecognized kind
raise `NotImplementedError`. -/
def add_constraint (I : ℕ → ℚ → ℚ) (b : ℕ → ℕ) : Constr → Except PyError PyRel
  | .relConstraint r => make_pyomo_relation I b r
  | .bareRel r => make_pyomo_relation I b r
  | .sos1 _ => .error .notImplementedError
  | .sos2 _ => .error .notImplementedError
  | .unrecognized => .error .notImplementedError

/-- Optimization sense of a problem (`friendlysam...Sense`). -/
inductive Sense where
  | minimize
  | maximize
deriving DecidableEq

/-- Pyomo's objective sense constants. -/
inductive PySense where
  | minimize
  | maximize
deriving DecidableEq

/-- The `sense_translation` dict of `PyomoSolver._set_objective`. -/
def sense_translation : Sense → PySense
  | .minimize => .minimize
  | .maximize => .maximize

/-- An optimization problem as consumed by `PyomoSolver.solve`:
its variable set, objective expression, sense, and constraints. -/
structure Problem where
  variableList : List Variable
  objective : Expr
  sense : Sense
  constraints : List Constr

/-- `PyomoSolver._set_objective(problem)`: translate the objective polynomial
and register it with the translated sense. -/
def set_objective (I : ℕ → ℚ → ℚ) (b : ℕ → ℕ) (P : Problem) :
    Except PyError (PyExpr × PySense) := do
  let e ← make_pyomo_poly I b P.objective
  return (e, sense_translation P.sense)

/-- Solution status reported by the external solver
(`pyomo.opt.SolutionStatus`). -/
inductive SolutionStatus where
  | optimal
  | feasible
  | infeasible
  | unbounded
  | error
  | stoppedByLimit
  | unknown
deriving DecidableEq

/-- The string form of a solution status, as formatted into the
`SolverError` message. -/
def statusStr : SolutionStatus → String
  | .optimal => "optimal"
  | .feasible => "feasible"
  | .infeasible => "infeasible"
  | .unbounded => "unbounded"
  | .error => "error"
  | .stoppedByLimit => "stoppedByLimit"
  | .unknown => "unknown"

/-- The outcome of the external solver invocation
`self._solver.solve(self._model)`: a status and, via `load`, a numeric value
for each pyomo variable (keyed by its creation counter). -/
structure SolverResult where
  status : SolutionStatus
  values : ℕ → ℚ

/-- `PyomoSolver.solve(problem)`: reset the counters, build the fresh
variable binding, set the objective, add every constraint (Python 2's eager
`map`), invoke the external solver (whose outcome is the parameter `res`),
raise `SolverError` unless the reported status is optimal, and return
`{key: variable.value for key, variable in self._pyomo_variables.items()}`. -/
def solve (I : ℕ → ℚ → ℚ) (res : SolverResult) (P : Problem) :
    Except PyError (List (Variable × ℚ)) := do
  let binding := bind_vars P.variableList
  let _obj ← set_objective I (lookupIdx binding) P
  let _cs ← P.constraints.mapM (add_constraint I (lookupIdx binding))
  if res.status = .optimal then
    return binding.map fun p => (p.1, res.values p.2.idx)
  else
    .error (.solverError ("pyomo solution status is " ++ statusStr res.status))

/-! ## The solver registry (`get_solver`) -/

/-- A constructed `PyomoSolver` instance: the backend name and the
`solver_io` mode passed to `SolverFactory`. -/
structure PyomoSolverInst where
  backend : String
  mode : String
deriving DecidableEq

/-- The module-level default preference order `DEFAULT_SOLVER_ORDER`. -/
def solver_order : List String := ["gurobi", "cbc"]

/-- The `_solver_funcs` dict: the constructor table, keyed by backend name.
A name outside the table raises `KeyError` in `get_solver`. -/
def solver_funcs : String → Option PyomoSolverInst
  | "gurobi" => some { backend := "gurobi", mode := "python" }
  | "cbc" => some { backend := "cbc", mode := "asl" }
  | _ => none

/-- The observable outcome of `get_solver`: a constructed solver, the
implicit `None` returned when the loop exhausts all names, or a `KeyError`
propagating for a name outside `_solver_funcs` (it is raised inside the
`try`, but only `SolverNotAvailableError` is caught). -/
inductive GetSolverOutcome where
  | found : PyomoSolverInst → GetSolverOutcome
  | noneAvailable : GetSolverOutcome
  | keyError : String → GetSolverOutcome
deriving DecidableEq

/-- The `for name in names` loop of `get_solver`: construct the candidate,
catching `SolverNotAvailableError` (which `PyomoSolver.__init__` documents it
raises when the backend is unavailable; availability is the external oracle
`avail`) and continuing with the next name. -/
def get_solver_from (avail : String → Bool) : List String → GetSolverOutcome
  | [] => .noneAvailable
  | n :: rest =>
    match solver_funcs n with
    | none => .keyError n
    | some inst => if avail n then .found inst else get_solver_from avail rest

/-- `get_solver(*names)`: walk the given names, or the configured
`solver_order` when none are given. -/
def get_solver (avail : String → Bool) (names : List String) : GetSolverOutcome :=
  get_solver_from avail (if names = [] then solver_order else names)

/-! ## Evaluation lemmas for the polynomial translation -/

lemma eval_congr (I : ℕ → ℚ → ℚ) (σ σ' : ℕ → ℚ) (e : Expr)
    (h : ∀ v ∈ e.varList, σ v = σ' v) : e.eval I σ = e.eval I σ' := by
  induction e with
  | const c => rfl
  | var n => exact h n (by simp [Expr.varList])
  | add a b iha ihb =>
    simp only [Expr.eval]
    rw [iha fun v hv => h v (by simp [Expr.varList, hv]),
      ihb fun v hv => h v (by simp [Expr.varList, hv])]
  | sub a b iha ihb =>
    simp only [Expr.eval]
    rw [iha fun v hv => h v (by simp [Expr.varList, hv]),
      ihb fun v hv => h v (by simp [Expr.varList, hv])]
  | mul a b iha ihb =>
    simp only [Expr.eval]
    rw [iha fun v hv => h v (by simp [Expr.varList, hv]),
      ihb fun v hv => h v (by simp [Expr.varList, hv])]
  | pow a n iha =>
    simp only [Expr.eval]
    rw [iha fun v hv => h v (by simpa [Expr.varList] using hv)]
  | func f a iha =>
    simp only [Expr.eval]
    rw [iha fun v hv => h v (by simpa [Expr.varList] using hv)]

lemma mem_symbols_iff (e : Expr) (v : ℕ) : v ∈ e.symbols ↔ v ∈ e.varList := by
  unfold Expr.symbols
  rw [List.mem_insertionSort, List.mem_dedup]

lemma symbols_nil_varList (e : Expr) (h : e.symbols = []) : e.varList = [] := by
  unfold Expr.symbols at h
  have hp := List.perm_insertionSort (· ≤ ·) e.varList.dedup
  rw [h] at hp
  exact (List.dedup_eq_nil e.varList).mp hp.nil_eq.symm

lemma pyeval_foldl_add (τ : ℕ → ℚ) (ts : List PyExpr) (acc : PyExpr) :
    (ts.foldl .add acc).eval τ = acc.eval τ + (ts.map (PyExpr.eval τ)).sum := by
  induction ts generalizing acc with
  | nil => simp
  | cons t ts ih =>
    rw [List.foldl_cons, ih, List.map_cons, List.sum_cons]
    simp [PyExpr.eval]
    ring

lemma pySum_eval (τ : ℕ → ℚ) (ts : List PyExpr) :
    (pySum ts).eval τ = (ts.map (PyExpr.eval τ)).sum := by
  rw [pySum, pyeval_foldl_add]
  simp [PyExpr.eval]

lemma pyeval_foldl_mul (τ : ℕ → ℚ) (ts : List PyExpr) (acc : PyExpr) :
    (ts.foldl .mul acc).eval τ = acc.eval τ * (ts.map (PyExpr.eval τ)).prod := by
  induction ts generalizing acc with
  | nil => simp
  | cons t ts ih =>
    rw [List.foldl_cons, ih, List.map_cons, List.prod_cons]
    simp [PyExpr.eval]
    ring

lemma reduceMul_eval (τ : ℕ → ℚ) (ts : List PyExpr) :
    (reduceMul ts).eval τ = (ts.map (PyExpr.eval τ)).prod := by
  cases ts with
  | nil => simp [reduceMul, PyExpr.eval]
  | cons x xs => rw [reduceMul, pyeval_foldl_mul, List.map_cons, List.prod_cons]

lemma monomEval_cons (x : ℚ) (rest : List ℚ) (m : Monom) :
    monomEval (x :: rest) m = x ^ m 0 * monomEval rest (fun i => m (i + 1)) := by
  unfold monomEval
  rw [List.length_cons, Finset.prod_range_succ']
  simp only [List.getD_cons_succ, List.getD_cons_zero]
  exact mul_comm _ _

lemma monomEval_of_zero (vals : List ℚ) (m : Monom)
    (h : ∀ i < vals.length, m i = 0) : monomEval vals m = 1 := by
  unfold monomEval
  apply Finset.prod_eq_one
  intro i hi
  rw [Finset.mem_range] at hi
  rw [h i hi, pow_zero]

lemma monomEval_one (vals : List ℚ) : monomEval vals monomOne = 1 :=
  monomEval_of_zero _ _ fun _ _ => rfl

lemma monomEval_var (vals : List ℚ) (j : ℕ) (hj : j < vals.length) :
    monomEval vals (monomVar j) = vals.getD j 0 := by
  induction vals generalizing j with
  | nil => simp at hj
  | cons x rest ih =>
    rw [monomEval_cons]
    cases j with
    | zero =>
      have h1 : (fun i => monomVar 0 (i + 1)) = monomOne :=
        funext fun i => by simp [monomVar, monomOne]
      rw [h1, monomEval_one]
      simp [monomVar]
    | succ j =>
      have h1 : (fun i => monomVar (j + 1) (i + 1)) = monomVar j :=
        funext fun i => by simp [monomVar]
      rw [h1, ih j (by simpa using hj)]
      simp [monomVar]

lemma monomEval_mul (vals : List ℚ) (m m' : Monom) :
    monomEval vals (monomMul m m') = monomEval vals m * monomEval vals m' := by
  unfold monomEval monomMul
  rw [← Finset.prod_mul_distrib]
  exact Finset.prod_congr rfl fun i _ => pow_add _ _ _

lemma polyEval_polyC (vals : List ℚ) (c : ℚ) : polyEval vals (polyC c) = c := by
  simp [polyEval, polyC, monomEval_one]

lemma polyEval_polyX (vals : List ℚ) (j : ℕ) (hj : j < vals.length) :
    polyEval vals (polyX j) = vals.getD j 0 := by
  simp [polyEval, polyX, monomEval_var vals j hj]

lemma polyEval_add (vals : List ℚ) (p q : Poly) :
    polyEval vals (polyAdd p q) = polyEval vals p + polyEval vals q := by
  simp [polyEval, polyAdd]

lemma polyEval_neg (vals : List ℚ) (p : Poly) :
    polyEval vals (polyNeg p) = -polyEval vals p := by
  induction p with
  | nil => simp [polyEval, polyNeg]
  | cons t p ih =>
    simp only [polyEval, polyNeg, List.map_cons, List.sum_cons] at ih ⊢
    rw [ih]
    ring

lemma polyEval_sub (vals : List ℚ) (p q : Poly) :
    polyEval vals (polySub p q) = polyEval vals p - polyEval vals q := by
  rw [polySub, polyEval_add, polyEval_neg]
  ring

lemma polyEval_mul (vals : List ℚ) (p q : Poly) :
    polyEval vals (polyMul p q) = polyEval vals p * polyEval vals q := by
  induction p with
  | nil => simp [polyEval, polyMul]
  | cons t p ih =>
    have hhead : ((q.map fun u => (monomMul t.1 u.1, t.2 * u.2)).map
        fun s => s.2 * monomEval vals s.1).sum
        = (t.2 * monomEval vals t.1) * polyEval vals q := by
      rw [List.map_map, polyEval]
      have h1 : ((fun s : Monom × ℚ => s.2 * monomEval vals s.1) ∘
          fun u : Monom × ℚ => (monomMul t.1 u.1, t.2 * u.2))
          = fun u : Monom × ℚ =>
            (t.2 * monomEval vals t.1) * (u.2 * monomEval vals u.1) := by
        funext u
        simp only [Function.comp_apply, monomEval_mul]
        ring
      rw [h1, List.sum_map_mul_left]
    simp only [polyMul, List.flatMap_cons] at ih ⊢
    simp only [polyEval, List.map_append, List.sum_append, List.map_cons,
      List.sum_cons] at ih ⊢
    rw [hhead, ih]
    simp only [polyEval]
    ring

lemma polyEval_pow (vals : List ℚ) (p : Poly) (n : ℕ) :
    polyEval vals (polyPow p n) = polyEval vals p ^ n := by
  induction n with
  | zero => simp [polyPow, polyEval_polyC]
  | succ n ih => rw [polyPow, polyEval_mul, ih, pow_succ]; ring

lemma asPoly_eval (I : ℕ → ℚ → ℚ) (σ : ℕ → ℚ) (syms : List ℕ) (e : Expr) :
    ∀ p : Poly, asPoly syms e = some p → (∀ v ∈ e.varList, v ∈ syms) →
      polyEval (syms.map σ) p = e.eval I σ := by
  induction e with
  | const c =>
    intro p hp _
    rw [asPoly] at hp
    injection hp with hp
    rw [← hp, polyEval_polyC, Expr.eval]
  | var n =>
    intro p hp hcov
    have hn : n ∈ syms := hcov n (by simp [Expr.varList])
    rw [asPoly, if_pos hn] at hp
    injection hp with hp
    have hj : syms.indexOf n < (syms.map σ).length := by
      rw [List.length_map]
      exact List.indexOf_lt_length.mpr hn
    rw [← hp, polyEval_polyX _ _ hj, List.getD_eq_getElem _ _ hj,
      List.getElem_map, List.getElem_indexOf, Expr.eval]
  | add a b iha ihb =>
    intro p hp hcov
    simp only [asPoly, Option.bind_eq_bind, Option.bind_eq_some] at hp
    obtain ⟨pa, ha, pb, hb, hpp⟩ := hp
    injection hpp with hpp
    rw [← hpp, polyEval_add, Expr.eval,
      iha pa ha fun v hv => hcov v (by simp [Expr.varList, hv]),
      ihb pb hb fun v hv => hcov v (by simp [Expr.varList, hv])]
  | sub a b iha ihb =>
    intro p hp hcov
    simp only [asPoly, Option.bind_eq_bind, Option.bind_eq_some] at hp
    obtain ⟨pa, ha, pb, hb, hpp⟩ := hp
    injection hpp with hpp
    rw [← hpp, polyEval_sub, Expr.eval,
      iha pa ha fun v hv => hcov v (by simp [Expr.varList, hv]),
      ihb pb hb fun v hv => hcov v (by simp [Expr.varList, hv])]
  | mul a b iha ihb =>
    intro p hp hcov
    simp only [asPoly, Option.bind_eq_bind, Option.bind_eq_some] at hp
    obtain ⟨pa, ha, pb, hb, hpp⟩ := hp
    injection hpp with hpp
    rw [← hpp, polyEval_mul, Expr.eval,
      iha pa ha fun v hv => hcov v (by simp [Expr.varList, hv]),
      ihb pb hb fun v hv => hcov v (by simp [Expr.varList, hv])]
  | pow a n iha =>
    intro p hp hcov
    simp only [asPoly, Option.bind_eq_bind, Option.bind_eq_some] at hp
    obtain ⟨pa, ha, hpp⟩ := hp
    injection hpp with hpp
    rw [← hpp, polyEval_pow, Expr.eval,
      iha pa ha fun v hv => hcov v (by simpa [Expr.varList] using hv)]
  | func f a _ =>
    intro p hp _
    rw [asPoly] at hp
    cases hp

lemma mkFactors_prod (τ : ℕ → ℚ) (l : List (ℕ × ℕ)) :
    ((mkFactors l).map (PyExpr.eval τ)).prod
      = (l.map fun be => τ be.1 ^ be.2).prod := by
  induction l with
  | nil => simp [mkFactors]
  | cons be l ih =>
    by_cases h : be.2 = 0
    · rw [mkFactors, List.filter_cons_of_neg (by simp [h])]
      rw [List.map_cons, List.prod_cons, h, pow_zero, one_mul]
      exact ih
    · rw [mkFactors, List.filter_cons_of_pos (by simp [h]), List.flatMap_cons,
        List.map_append, List.prod_append, List.map_replicate,
        List.prod_replicate, List.map_cons, List.prod_cons]
      rw [← ih, mkFactors]
      rfl

lemma zip_range_prod (τ : ℕ → ℚ) (vs : List ℕ) (m : Monom) :
    ((vs.zip ((List.range vs.length).map m)).map fun be => τ be.1 ^ be.2).prod
      = monomEval (vs.map τ) m := by
  induction vs generalizing m with
  | nil => simp [monomEval]
  | cons v vs ih =>
    rw [List.length_cons, List.range_succ_eq_map, List.map_cons, List.map_map,
      List.zip_cons_cons, List.map_cons, List.prod_cons, List.map_cons,
      monomEval_cons]
    have h1 : List.map (m ∘ Nat.succ) (List.range vs.length)
        = List.map (fun i => m (i + 1)) (List.range vs.length) := rfl
    rw [h1, ih fun i => m (i + 1)]

lemma mkTerm_eval (τ : ℕ → ℚ) (vs : List ℕ) (t : Monom × ℚ) :
    (mkTerm vs t).eval τ = t.2 * monomEval (vs.map τ) t.1 := by
  unfold mkTerm
  by_cases h : ((List.range vs.length).map t.1).all fun e => e == 0
  · rw [if_pos h]
    have h0 : ∀ i < (vs.map τ).length, t.1 i = 0 := by
      intro i hi
      rw [List.length_map] at hi
      have : t.1 i ∈ (List.range vs.length).map t.1 :=
        List.mem_map_of_mem t.1 (List.mem_range.mpr hi)
      simpa using List.all_eq_true.mp h _ this
    rw [monomEval_of_zero _ _ h0, mul_one, PyExpr.eval]
  · rw [if_neg h, PyExpr.eval, PyExpr.eval, reduceMul_eval, mkFactors_prod,
      zip_range_prod]

/-- Correctness of `_make_pyomo_poly`: whenever translation succeeds, the
resulting pyomo expression, evaluated at any assignment `τ` of the pyomo
variables, has the value of the original expression at any assignment `σ` of
the problem variables that agrees with `τ` through the binding `b`. -/
lemma make_pyomo_poly_eval (I : ℕ → ℚ → ℚ) (b : ℕ → ℕ) (σ τ : ℕ → ℚ)
    (e : Expr) (p : PyExpr)
    (hcov : ∀ v ∈ e.vars, τ (b v) = σ v)
    (h : make_pyomo_poly I b e = .ok p) :
    p.eval τ = e.eval I σ := by
  have hcov' : ∀ v ∈ e.varList, τ (b v) = σ v := fun v hv =>
    hcov v (List.mem_toFinset.mpr hv)
  unfold make_pyomo_poly at h
  by_cases hsym : e.symbols.length = 0
  · rw [if_pos hsym] at h
    injection h with h
    rw [← h, PyExpr.eval]
    apply eval_congr
    intro v hv
    rw [symbols_nil_varList e (List.length_eq_zero.mp hsym)] at hv
    cases hv
  · rw [if_neg hsym] at h
    cases hq : asPoly e.symbols e with
    | none => rw [hq] at h; cases h
    | some q =>
      rw [hq] at h
      injection h with h
      rw [← h, pySum_eval, List.map_map]
      have h1 : (PyExpr.eval τ ∘ mkTerm (e.symbols.map b))
          = fun t : Monom × ℚ =>
            t.2 * monomEval ((e.symbols.map b).map τ) t.1 :=
        funext fun t => mkTerm_eval τ (e.symbols.map b) t
      rw [h1]
      have h2 : (e.symbols.map b).map τ = e.symbols.map σ := by
        rw [List.map_map]
        exact List.map_congr_left fun s hs =>
          hcov' s ((mem_symbols_iff e s).mp hs)
      rw [h2]
      exact asPoly_eval I σ e.symbols e q hq fun v hv =>
        (mem_symbols_iff e v).mpr hv

/-! ## Lemmas about the variable binding and the registry -/

lemma except_bind_error {α β : Type} (e : PyError) (f : α → Except PyError β) :
    (Except.error e : Except PyError α) >>= f = .error e := rfl

lemma except_bind_ok {α β : Type} (a : α) (f : α → Except PyError β) :
    (Except.ok a : Except PyError α) >>= f = f a := rfl

lemma bind_vars_from_fst (c : ℕ) (vs : List Variable) :
    (bind_vars_from c vs).map Prod.fst = vs := by
  induction vs generalizing c with
  | nil => rfl
  | cons v vs ih => simp [bind_vars_from, add_var, ih]

lemma bind_vars_from_idx_gt (c : ℕ) (vs : List Variable) :
    ∀ p ∈ bind_vars_from c vs, c < p.2.idx := by
  induction vs generalizing c with
  | nil => simp [bind_vars_from]
  | cons v vs ih =>
    intro p hp
    simp only [bind_vars_from, add_var, List.mem_cons] at hp
    cases hp with
    | inl h => subst h; simp
    | inr h => exact Nat.lt_trans (Nat.lt_succ_self c) (ih (c + 1) p h)

lemma bind_vars_from_idx_nodup (c : ℕ) (vs : List Variable) :
    ((bind_vars_from c vs).map fun p => p.2.idx).Nodup := by
  induction vs generalizing c with
  | nil => simp [bind_vars_from]
  | cons v vs ih =>
    simp only [bind_vars_from, add_var, List.map_cons, List.nodup_cons]
    refine ⟨fun hmem => ?_, ih (c + 1)⟩
    obtain ⟨p, hp, hidx⟩ := List.mem_map.mp hmem
    have := bind_vars_from_idx_gt (c + 1) vs p hp
    omega

lemma bind_vars_from_meta (c : ℕ) (vs : List Variable) :
    ∀ p ∈ bind_vars_from c vs,
      p.2.lb = none ∧ p.2.ub = none ∧ p.2.domain = PyDomain.reals := by
  induction vs generalizing c with
  | nil => simp [bind_vars_from]
  | cons v vs ih =>
    intro p hp
    simp only [bind_vars_from, add_var, List.mem_cons] at hp
    cases hp with
    | inl h => subst h; exact ⟨rfl, rfl, rfl⟩
    | inr h => exact ih (c + 1) p h

lemma get_solver_from_none (avail : String → Bool) :
    ∀ names : List String,
      (∀ n ∈ names, (solver_funcs n).isSome = true) →
      (∀ n ∈ names, avail n = false) →
      get_solver_from avail names = .noneAvailable := by
  intro names
  induction names with
  | nil => intro _ _; rfl
  | cons n rest ih =>
    intro hk hu
    rw [get_solver_from]
    cases hs : solver_funcs n with
    | none =>
      have := hk n (by simp)
      rw [hs] at this
      cases this
    | some inst =>
      rw [hu n (by simp)]
      simp only [Bool.false_eq_true, if_false]
      exact ih (fun x hx => hk x (by simp [hx])) fun x hx => hu x (by simp [hx])

/-! ## The claims -/

/-- C1: for every expression that is reducible to a polynomial over its
variables (so that `_make_pyomo_poly` succeeds) and every variable binding
`b` covering the expression's variables, the returned pyomo expression is
algebraically equivalent to the input: its value at any assignment `τ` of
the pyomo variables equals the value of the original expression at any
assignment `σ` of the problem variables that corresponds to `τ` through the
binding.  (By construction of `mkTerm`, a variable with exponent `n` is
realized as `n` multiplicative factors via `List.replicate`, and an all-zero
exponent vector is contributed as the pure numeric constant `coeff`.) -/
theorem poly_translation_correct (I : ℕ → ℚ → ℚ) (b : ℕ → ℕ) (σ τ : ℕ → ℚ)
    (e : Expr) (p : PyExpr) (hcov : ∀ v ∈ e.vars, τ (b v) = σ v)
    (h : make_pyomo_poly I b e = .ok p) : p.eval τ = e.eval I σ :=
  make_pyomo_poly_eval I b σ τ e p hcov h

/-- Witness for C1 at the concrete polynomial `x0 * x1 + 2` with both
assignments constantly 3 and the binding sending symbol `n` to pyomo
variable `n + 1`. -/
theorem poly_translation_correct_witness :
    PyExpr.eval (fun _ => 3)
        (.add (.add (.const 0) (.mul (.const (1 * 1)) (.mul (.var 1) (.var 2))))
          (.const 2))
      = Expr.eval (fun _ _ => 0) (fun _ => 3)
          (.add (.mul (.var 0) (.var 1)) (.const 2)) :=
  poly_translation_correct (fun _ _ => 0) (fun n => n + 1) (fun _ => 3)
    (fun _ => 3) (.add (.mul (.var 0) (.var 1)) (.const 2))
    (.add (.add (.const 0) (.mul (.const (1 * 1)) (.mul (.var 1) (.var 2))))
      (.const 2))
    (by decide) rfl

/-- C2: whenever `solve` returns a mapping, its key list is exactly the
problem's variable list — every problem variable is a key and no other key
occurs. -/
theorem solve_roundtrip_keys (I : ℕ → ℚ → ℚ) (res : SolverResult)
    (P : Problem) (m : List (Variable × ℚ)) (h : solve I res P = .ok m) :
    m.map Prod.fst = P.variableList := by
  simp only [solve] at h
  cases h1 : set_objective I (lookupIdx (bind_vars P.variableList)) P with
  | error err => rw [h1, except_bind_error] at h; cases h
  | ok o =>
    rw [h1, except_bind_ok] at h
    cases h2 : P.constraints.mapM
        (add_constraint I (lookupIdx (bind_vars P.variableList))) with
    | error err => rw [h2, except_bind_error] at h; cases h
    | ok cs =>
      rw [h2, except_bind_ok] at h
      by_cases hst : res.status = .optimal
      · rw [if_pos hst] at h
        injection h with h
        rw [← h, List.map_map]
        exact bind_vars_from_fst 0 P.variableList
      · rw [if_neg hst] at h
        cases h

/-- Witness for C2: a one-variable problem with constant objective and no
constraints, solved with an optimal oracle result. -/
theorem solve_roundtrip_keys_witness :
    ([({ id := 0, lb := some (-1), ub := none, domain := .integer }, 7)] :
        List (Variable × ℚ)).map Prod.fst
      = Problem.variableList
          ⟨[{ id := 0, lb := some (-1), ub := none, domain := .integer }],
            .const 1, .minimize, []⟩ :=
  solve_roundtrip_keys (fun _ _ => 0) ⟨.optimal, fun _ => 7⟩
    ⟨[{ id := 0, lb := some (-1), ub := none, domain := .integer }],
      .const 1, .minimize, []⟩
    [({ id := 0, lb := some (-1), ub := none, domain := .integer }, 7)]
    (by decide)

/-- C3: when the model builds successfully and the external solver reports
any status other than optimal, `solve` raises `SolverError` carrying the
reported status string; and (unconditionally) a mapping is returned only
when the status is optimal. -/
theorem solve_status_gate (I : ℕ → ℚ → ℚ) (res : SolverResult) (P : Problem)
    (obj : PyExpr × PySense) (cs : List PyRel)
    (hobj : set_objective I (lookupIdx (bind_vars P.variableList)) P = .ok obj)
    (hcs : P.constraints.mapM
        (add_constraint I (lookupIdx (bind_vars P.variableList))) = .ok cs) :
    (res.status ≠ .optimal →
      solve I res P = .error (.solverError
        ("pyomo solution status is " ++ statusStr res.status))) ∧
    ∀ m, solve I res P = .ok m → res.status = .optimal := by
  constructor
  · intro hne
    simp only [solve]
    rw [hobj, except_bind_ok, hcs, except_bind_ok, if_neg hne]
  · intro m h
    by_contra hne
    simp only [solve] at h
    rw [hobj, except_bind_ok, hcs, except_bind_ok, if_neg hne] at h
    cases h

/-- Witness for C3: the spec's infeasible scenario (`x ≥ 5` and `x ≤ 1`)
with an `infeasible` oracle status. -/
theorem solve_status_gate_witness :
    solve (fun _ _ => 0) ⟨.infeasible, fun _ => 0⟩
        ⟨[{ id := 0, lb := none, ub := none, domain := .continuous }],
          .var 0, .minimize,
          [.relConstraint (.ge (.var 0) (.const 5)),
            .relConstraint (.le (.var 0) (.const 1))]⟩
      = .error (.solverError "pyomo solution status is infeasible") :=
  (solve_status_gate (fun _ _ => 0) ⟨.infeasible, fun _ => 0⟩
    ⟨[{ id := 0, lb := none, ub := none, domain := .continuous }],
      .var 0, .minimize,
      [.relConstraint (.ge (.var 0) (.const 5)),
        .relConstraint (.le (.var 0) (.const 1))]⟩
    (.add (.const 0) (.mul (.const 1) (.var 1)), .minimize)
    [.ge0 (.add (.add (.const 0) (.mul (.const 1) (.var 1))) (.const (-5))),
      .le0 (.add (.add (.const 0) (.mul (.const 1) (.var 1))) (.const (-1)))]
    (by decide) (by decide)).1 (by decide)

/-- C4: `_make_pyomo_relation` rejects every strict inequality with a
`PyomoExpressionError` (never converting it to a non-strict constraint),
and rejects any other relation-like construct (sympy's `Unequality`) with a
`PyomoExpressionError` naming the unsupported expression and its type. -/
theorem relation_strict_rejected (I : ℕ → ℚ → ℚ) (b : ℕ → ℕ) (x y : Expr) :
    make_pyomo_relation I b (.lt x y)
        = .error (.pyomoExpressionError strictMsg) ∧
    make_pyomo_relation I b (.gt x y)
        = .error (.pyomoExpressionError strictMsg) ∧
    make_pyomo_relation I b (.ne x y)
        = .error (.pyomoExpressionError (cannotTranslateMsg (.ne x y))) :=
  ⟨rfl, rfl, rfl⟩

/-- C5 counterexample: the claim "each created solver variable preserves the
abstract variable's declared lower/upper bounds and domain tag" is false on
the code: `_add_var` calls `pyomo.environ.Var()` with no arguments, so the
variable created for an integer-domain problem variable with lower bound -1
is an unbounded continuous pyomo variable. -/
theorem bind_vars_meta_counterexample :
    bind_vars [{ id := 0, lb := some (-1), ub := none, domain := .integer }]
      = [({ id := 0, lb := some (-1), ub := none, domain := .integer },
          { idx := 1, name := "v1", lb := none, ub := none,
            domain := .reals })] ∧
    ¬ specPreservesMeta
        { id := 0, lb := some (-1), ub := none, domain := .integer }
        { idx := 1, name := "v1", lb := none, ub := none, domain := .reals } :=
  ⟨by decide, fun h => by cases h.1⟩

/-- C5 amended: variable binding creates exactly one fresh pyomo variable
per problem variable (distinct counters, so the mapping is bijective), but
every created pyomo variable is unbounded and continuous regardless of the
abstract variable's declared bounds and domain tag. -/
theorem bind_vars_bijective_unbounded (vs : List Variable) :
    (bind_vars vs).map Prod.fst = vs ∧
    ((bind_vars vs).map fun p => p.2.idx).Nodup ∧
    ∀ p ∈ bind_vars vs,
      p.2.lb = none ∧ p.2.ub = none ∧ p.2.domain = PyDomain.reals :=
  ⟨bind_vars_from_fst 0 vs, bind_vars_from_idx_nodup 0 vs,
    bind_vars_from_meta 0 vs⟩

/-- Witness for C5 (amended): the pyomo variable created for the integer
variable of the counterexample is unbounded and continuous. -/
theorem bind_vars_bijective_unbounded_witness :
    (({ id := 0, lb := some (-1), ub := none, domain := .integer },
        { idx := 1, name := "v1", lb := none, ub := none, domain := .reals }) :
        Variable × PyomoVar).2.lb = none ∧
    (({ id := 0, lb := some (-1), ub := none, domain := .integer },
        { idx := 1, name := "v1", lb := none, ub := none, domain := .reals }) :
        Variable × PyomoVar).2.ub = none ∧
    (({ id := 0, lb := some (-1), ub := none, domain := .integer },
        { idx := 1, name := "v1", lb := none, ub := none, domain := .reals }) :
        Variable × PyomoVar).2.domain = PyDomain.reals :=
  (bind_vars_bijective_unbounded
      [{ id := 0, lb := some (-1), ub := none, domain := .integer }]).2.2
    ({ id := 0, lb := some (-1), ub := none, domain := .integer },
      { idx := 1, name := "v1", lb := none, ub := none, domain := .reals })
    (by decide)

/-- C6: `_make_pyomo_relation` translates a relation between two polynomial
expressions into the single normalized constraint
`_make_pyomo_poly(lhs - rhs) ⊳ 0` for `⊳ ∈ {≤, ≥, =}`; moreover, whenever
translation succeeds, the produced constraint holds at a pyomo assignment
iff the original relation holds at the corresponding assignment of the
problem variables. -/
theorem relation_normal_form (I : ℕ → ℚ → ℚ) (b : ℕ → ℕ) (σ τ : ℕ → ℚ)
    (x y : Expr) (hcov : ∀ v ∈ (Expr.sub x y).vars, τ (b v) = σ v) :
    (make_pyomo_relation I b (.le x y)
        = (make_pyomo_poly I b (.sub x y)).map .le0 ∧
      ∀ pc, make_pyomo_relation I b (.le x y) = .ok pc →
        (pc.holds τ ↔ Rel.holds I σ (.le x y))) ∧
    (make_pyomo_relation I b (.ge x y)
        = (make_pyomo_poly I b (.sub x y)).map .ge0 ∧
      ∀ pc, make_pyomo_relation I b (.ge x y) = .ok pc →
        (pc.holds τ ↔ Rel.holds I σ (.ge x y))) ∧
    (make_pyomo_relation I b (.eq x y)
        = (make_pyomo_poly I b (.sub x y)).map .eq0 ∧
      ∀ pc, make_pyomo_relation I b (.eq x y) = .ok pc →
        (pc.holds τ ↔ Rel.holds I σ (.eq x y))) := by
  have hsub : ∀ q : PyExpr, make_pyomo_poly I b (.sub x y) = .ok q →
      q.eval τ = x.eval I σ - y.eval I σ := fun q hq =>
    make_pyomo_poly_eval I b σ τ (.sub x y) q hcov hq
  refine ⟨⟨rfl, ?_⟩, ⟨rfl, ?_⟩, ⟨rfl, ?_⟩⟩ <;> intro pc hpc
  · rw [make_pyomo_relation] at hpc
    cases hq : make_pyomo_poly I b (.sub x y) with
    | error err => rw [hq] at hpc; cases hpc
    | ok q =>
      rw [hq] at hpc
      injection hpc with hpc
      rw [← hpc]
      show q.eval τ ≤ 0 ↔ _
      rw [hsub q hq, Rel.holds]
      exact sub_nonpos
  · rw [make_pyomo_relation] at hpc
    cases hq : make_pyomo_poly I b (.sub x y) with
    | error err => rw [hq] at hpc; cases hpc
    | ok q =>
      rw [hq] at hpc
      injection hpc with hpc
      rw [← hpc]
      show 0 ≤ q.eval τ ↔ _
      rw [hsub q hq, Rel.holds]
      exact sub_nonneg
  · rw [make_pyomo_relation] at hpc
    cases hq : make_pyomo_poly I b (.sub x y) with
    | error err => rw [hq] at hpc; cases hpc
    | ok q =>
      rw [hq] at hpc
      injection hpc with hpc
      rw [← hpc]
      show q.eval τ = 0 ↔ _
      rw [hsub q hq, Rel.holds]
      exact sub_eq_zero

/-- Witness for C6 at the concrete relation `x0 ≤ 1`. -/
theorem relation_normal_form_witness :
    PyRel.holds (fun _ => 0)
        (.le0 (.add (.add (.const 0) (.mul (.const 1) (.var 1))) (.const (-1))))
      ↔ Rel.holds (fun _ _ => 0) (fun _ => 0) (.le (.var 0) (.const 1)) :=
  ((relation_normal_form (fun _ _ => 0) (fun _ => 1) (fun _ => 0) (fun _ => 0)
      (.var 0) (.const 1) (by decide)).1).2
    (.le0 (.add (.add (.const 0) (.mul (.const 1) (.var 1))) (.const (-1))))
    (by decide)

/-- C7: dispatching an `SOS1Constraint` or `SOS2Constraint` raises
`NotImplementedError` (failing fast rather than silently ignoring the
constraint), and dispatching a constraint of any unrecognized kind likewise
raises `NotImplementedError`. -/
theorem sos_dispatch_unimplemented (I : ℕ → ℚ → ℚ) (b : ℕ → ℕ)
    (vs : List Variable) :
    add_constraint I b (.sos1 vs) = .error .notImplementedError ∧
    add_constraint I b (.sos2 vs) = .error .notImplementedError ∧
    add_constraint I b .unrecognized = .error .notImplementedError :=
  ⟨rfl, rfl, rfl⟩

/-- C8: `get_solver` walks the name list in order, silently skipping a
candidate whose construction fails with `SolverNotAvailableError`; with an
unavailable primary and an available secondary it returns the secondary
without raising. -/
theorem get_solver_fallback (avail : String → Bool) (n1 n2 : String)
    (i1 i2 : PyomoSolverInst)
    (h1 : solver_funcs n1 = some i1) (h2 : solver_funcs n2 = some i2)
    (hu : avail n1 = false) (ha : avail n2 = true) :
    get_solver avail [n1, n2] = .found i2 := by
  rw [get_solver, if_neg (by simp), get_solver_from, h1, hu]
  simp only [Bool.false_eq_true, if_false]
  rw [get_solver_from, h2, ha]
  simp

/-- Witness for C8: gurobi unavailable, cbc available. -/
theorem get_solver_fallback_witness :
    get_solver (fun s => s == "cbc") ["gurobi", "cbc"]
      = .found { backend := "cbc", mode := "asl" } :=
  get_solver_fallback (fun s => s == "cbc") "gurobi" "cbc"
    { backend := "gurobi", mode := "python" }
    { backend := "cbc", mode := "asl" } (by decide) (by decide) (by decide)
    (by decide)

/-- C9: when every candidate in the walked name list (the given names, or
the configured `solver_order` when none are given) is unavailable,
`get_solver` returns the distinguishable no-solver outcome — Python's
implicit `None` — and never a constructed solver instance. -/
theorem get_solver_all_unavailable (avail : String → Bool)
    (names : List String)
    (hkeys : ∀ n ∈ names, (solver_funcs n).isSome = true)
    (hun : ∀ n ∈ names, avail n = false)
    (hdef : ∀ n ∈ solver_order, avail n = false) :
    get_solver avail names = .noneAvailable ∧
    ∀ inst, get_solver avail names ≠ .found inst := by
  have hmain : get_solver avail names = .noneAvailable := by
    rw [get_solver]
    by_cases hn : names = []
    · rw [if_pos hn]
      exact get_solver_from_none avail solver_order (by decide) hdef
    · rw [if_neg hn]
      exact get_solver_from_none avail names hkeys hun
  exact ⟨hmain, fun inst h => by rw [hmain] at h; cases h⟩

/-- Witness for C9: no backend available, default order. -/
theorem get_solver_all_unavailable_witness :
    get_solver (fun _ => false) [] = .noneAvailable ∧
    ∀ inst, get_solver (fun _ => false) [] ≠ .found inst :=
  get_solver_all_unavailable (fun _ => false) [] (by simp) (by simp)
    fun _ _ => rfl

/-- C10: for every expression with at least one variable that is not
reducible to a polynomial over its variables (sympy's `as_poly` yields
`None`), `_make_pyomo_poly` raises `ValueError`, and a solve whose
objective is such an expression fails without returning any mapping. -/
theorem nonpolynomial_rejected (I : ℕ → ℚ → ℚ) (e : Expr)
    (h1 : e.symbols ≠ []) (h2 : asPoly e.symbols e = none) :
    (∀ b : ℕ → ℕ, make_pyomo_poly I b e
        = .error (.valueError (e.str ++ " is not a sympy polynomial"))) ∧
    ∀ (res : SolverResult) (P : Problem) (m : List (Variable × ℚ)),
      P.objective = e → solve I res P ≠ .ok m := by
  have hmain : ∀ b : ℕ → ℕ, make_pyomo_poly I b e
      = .error (.valueError (e.str ++ " is not a sympy polynomial")) := by
    intro b
    unfold make_pyomo_poly
    rw [if_neg fun hl => h1 (List.length_eq_zero.mp hl), h2]
  refine ⟨hmain, ?_⟩
  intro res P m hobj h
  simp only [solve, set_objective] at h
  rw [hobj, hmain (lookupIdx (bind_vars P.variableList)),
    except_bind_error, except_bind_error] at h
  cases h

/-- Witness for C10: the non-polynomial expression `sin(x0)` (modelled as
`func 0 (var 0)`). -/
theorem nonpolynomial_rejected_witness :
    make_pyomo_poly (fun _ _ => 0) (fun _ => 0) (.func 0 (.var 0))
      = .error (.valueError
          ((Expr.func 0 (.var 0)).str ++ " is not a sympy polynomial")) :=
  (nonpolynomial_rejected (fun _ _ => 0) (.func 0 (.var 0))
    (by decide) rfl).1 fun _ => 0

end Friendlysam
